import Mathlib

/-!
Shallow embedding, in Lean 4, of the region-sifting / frequency-aggregation
engine of the `faba` repository (Rust), together with theorems settling the
frozen claims about its specification.

Conventions of the embedding:
* machine counts (`f32` values that the code only ever increments by `1.0`)
  are modelled as rationals `ℚ`;
* `i64` genomic coordinates are `Int`;
* Rust `HashMap` values are association lists with unique keys and
  insertion order preserved; Rust `HashSet` values are duplicate-free
  lists whose order records the (otherwise unobservable) iteration order;
* the `rayon` parallel iterations are modelled as sequential folds over the
  job list; the processing order is exposed as the list order, so that
  order-(in)dependence of results can be stated as invariance under
  permutations of that list;
* BAM I/O is modelled by `ModelBam`: the header (name, length) pairs and the
  list of alignment records; an indexed region fetch returns the records of
  the named sequence whose aligned base pairs overlap the region.
-/

namespace Faba

/-! ### util/dna.rs : `Dna`, `DnaBaseStat`, `BiAllele` -/

inductive Dna where
  | A
  | T
  | G
  | C
deriving DecidableEq

/-- `DnaBaseStat` from `util/dna.rs`: four (base, count) slots, kept in the
fixed array order `[A, T, G, C]`, plus the genomic position. -/
structure DnaBaseStat where
  data : List (Dna × ℚ)
  gpos : Int
deriving DecidableEq

def DnaBaseStat.new (gpos : Int) : DnaBaseStat :=
  ⟨[(Dna.A, 0), (Dna.T, 0), (Dna.G, 0), (Dna.C, 0)], gpos⟩

def DnaBaseStat.position (s : DnaBaseStat) : Int := s.gpos

/-- `DnaBaseStat::add`: bump the count slot of base `b` by `val`. -/
def DnaBaseStat.add (s : DnaBaseStat) (b : Dna) (val : ℚ) : DnaBaseStat :=
  { s with data := s.data.map (fun p => if p.1 = b then (p.1, p.2 + val) else p) }

/-- `DnaBaseStat::get`: the count slot of base `b`. -/
def DnaBaseStat.get (s : DnaBaseStat) (b : Dna) : ℚ :=
  (((s.data.find? (fun p => decide (p.1 = b))).map Prod.snd)).getD 0

/-- Rust's `Iterator::max_by` with the comparison on the count component:
when several elements are equally maximal the *last* one is returned. -/
def maxByLast (l : List (Dna × ℚ)) : Option (Dna × ℚ) :=
  match l with
  | [] => none
  | x :: xs => some (xs.foldl (fun acc y => if acc.2 ≤ y.2 then y else acc) x)

/-- `DnaBaseStat::most_frequent` (the `unwrap` cannot fail on the 4-slot
array; the default is irrelevant). -/
def DnaBaseStat.most_frequent (s : DnaBaseStat) : Dna × ℚ :=
  (maxByLast s.data).getD (Dna.A, 0)

structure BiAllele where
  a1 : Dna
  a2 : Dna
  n1 : ℚ
  n2 : ℚ
deriving DecidableEq

/-- `DnaBaseStat::bi_allelic_stat`: the top slot, and the top slot among the
bases different from the top slot's base. -/
def DnaBaseStat.bi_allelic_stat (s : DnaBaseStat) : BiAllele :=
  let fst := s.most_frequent
  let snd := (maxByLast (s.data.filter (fun p => decide (p.1 ≠ fst.1)))).getD (Dna.A, 0)
  ⟨fst.1, snd.1, fst.2, snd.2⟩

/-! ### sift/rules.rs : `BaseFilters` -/

structure BaseFilters where
  max_major_allele_cutoff : ℚ
  min_minor_allele_cutoff : ℚ
deriving DecidableEq

def BaseFilters.new : BaseFilters :=
  ⟨1 - 1/10000, 1/10000⟩

def BaseFilters.b_allele_frequency (_bf : BaseFilters) (stat : DnaBaseStat) : ℚ :=
  let s := stat.bi_allelic_stat
  s.n1 / max (s.n1 + s.n2) 1

def BaseFilters.is_variable (_bf : BaseFilters) (stat : DnaBaseStat) : Bool :=
  let s := stat.bi_allelic_stat
  decide (s.n1 > 0) && decide (s.n2 > 0)

def BaseFilters.is_near_zero_variance (bf : BaseFilters) (stat : DnaBaseStat) : Bool :=
  decide (stat.most_frequent.2 > bf.max_major_allele_cutoff)

/-! ### util/misc.rs : `make_intervals` -/

/-- One iteration check of the Rust loop
`for lb in (0..max_size).step_by(block_size) { push (lb, min(max_size, lb+block_size)) }`.
The fuel argument only bounds the number of iterations; `max_size.toNat`
iterations suffice whenever `block_size ≥ 1`. -/
def make_intervals_go (max_size block_size : Int) : Nat → Int → List (Int × Int)
  | 0, _ => []
  | fuel + 1, lb =>
    if lb < max_size then
      (lb, min max_size (lb + block_size)) :: make_intervals_go max_size block_size fuel (lb + block_size)
    else []

def make_intervals (max_size block_size : Int) : List (Int × Int) :=
  make_intervals_go max_size block_size max_size.toNat 0

/-! ### Spec-side helper notions used to state the claims -/

/-- A position stat with explicit counts for the four bases: the canonical
shape of every `DnaBaseStat` the pipeline constructs. -/
def mkStat (a t g c : ℚ) (p : Int) : DnaBaseStat :=
  ⟨[(Dna.A, a), (Dna.T, t), (Dna.G, g), (Dna.C, c)], p⟩

/-- The claims' "total": the sum of all four nucleotide counts. -/
def statTotal (s : DnaBaseStat) : ℚ :=
  (s.data.map Prod.snd).sum

/-- How many of the four bases have a strictly positive count. -/
def positiveBaseCount (s : DnaBaseStat) : Nat :=
  ([Dna.A, Dna.T, Dna.G, Dna.C].filter (fun b => decide (0 < s.get b))).length

/-- Largest of the four counts. -/
def top1 (a t g c : ℚ) : ℚ := max (max a t) (max g c)

def listMax : List ℚ → ℚ
  | [] => 0
  | [x] => x
  | x :: y :: rest => max x (listMax (y :: rest))

/-- Second-largest of the four counts: the largest after removing one
occurrence of the maximum. -/
def top2 (a t g c : ℚ) : ℚ :=
  listMax (([a, t, g, c]).erase (top1 a t g c))

/-! ### Lemmas about the variability filter on canonical stats -/


theorem mkStat_get_A (a t g c : ℚ) (p : Int) : (mkStat a t g c p).get Dna.A = a := rfl
theorem mkStat_get_T (a t g c : ℚ) (p : Int) : (mkStat a t g c p).get Dna.T = t := rfl
theorem mkStat_get_G (a t g c : ℚ) (p : Int) : (mkStat a t g c p).get Dna.G = g := rfl
theorem mkStat_get_C (a t g c : ℚ) (p : Int) : (mkStat a t g c p).get Dna.C = c := rfl

theorem mkStat_most_frequent (a t g c : ℚ) (p : Int) :
    (mkStat a t g c p).most_frequent =
      (if (if (if a ≤ t then (Dna.T, t) else (Dna.A, a)).2 ≤ g then (Dna.G, g)
           else (if a ≤ t then (Dna.T, t) else (Dna.A, a))).2 ≤ c then (Dna.C, c)
       else (if (if a ≤ t then (Dna.T, t) else (Dna.A, a)).2 ≤ g then (Dna.G, g)
             else (if a ≤ t then (Dna.T, t) else (Dna.A, a)))) := rfl

theorem mkStat_mf_val (a t g c : ℚ) (p : Int) :
    (mkStat a t g c p).most_frequent.2 = top1 a t g c := by
  rw [mkStat_most_frequent]; unfold top1
  split_ifs <;> simp_all [max_def] <;> split_ifs <;> linarith

theorem mkStat_mf_cases (a t g c : ℚ) (p : Int) :
    (mkStat a t g c p).most_frequent = (Dna.A, a) ∨ (mkStat a t g c p).most_frequent = (Dna.T, t) ∨
    (mkStat a t g c p).most_frequent = (Dna.G, g) ∨ (mkStat a t g c p).most_frequent = (Dna.C, c) := by
  rw [mkStat_most_frequent]; split_ifs <;> simp

theorem mkStat_mf_ge (a t g c : ℚ) (p : Int) (b : Dna) :
    (mkStat a t g c p).get b ≤ (mkStat a t g c p).most_frequent.2 := by
  rw [mkStat_mf_val]
  cases b <;> simp [mkStat_get_A, mkStat_get_T, mkStat_get_G, mkStat_get_C, top1, le_max_iff]


theorem maxByLast_three_val (x y z : Dna × ℚ) :
    ((maxByLast [x, y, z]).getD (Dna.A, 0)).2 = max x.2 (max y.2 z.2) := by
  simp [maxByLast]
  split_ifs <;> simp [max_def] <;> split_ifs <;> linarith

theorem mkStat_data (a t g c : ℚ) (p : Int) :
    (mkStat a t g c p).data = [(Dna.A, a), (Dna.T, t), (Dna.G, g), (Dna.C, c)] := rfl

theorem mkStat_n1_val (a t g c : ℚ) (p : Int) :
    (mkStat a t g c p).bi_allelic_stat.n1 = top1 a t g c := by
  have h : (mkStat a t g c p).bi_allelic_stat.n1 = (mkStat a t g c p).most_frequent.2 := rfl
  rw [h, mkStat_mf_val]

theorem mkStat_bi_cases (a t g c : ℚ) (p : Int) :
    ((mkStat a t g c p).bi_allelic_stat.a1 = Dna.A ∧ (mkStat a t g c p).bi_allelic_stat.n1 = a ∧
      (mkStat a t g c p).bi_allelic_stat.n2 = max t (max g c)) ∨
    ((mkStat a t g c p).bi_allelic_stat.a1 = Dna.T ∧ (mkStat a t g c p).bi_allelic_stat.n1 = t ∧
      (mkStat a t g c p).bi_allelic_stat.n2 = max a (max g c)) ∨
    ((mkStat a t g c p).bi_allelic_stat.a1 = Dna.G ∧ (mkStat a t g c p).bi_allelic_stat.n1 = g ∧
      (mkStat a t g c p).bi_allelic_stat.n2 = max a (max t c)) ∨
    ((mkStat a t g c p).bi_allelic_stat.a1 = Dna.C ∧ (mkStat a t g c p).bi_allelic_stat.n1 = c ∧
      (mkStat a t g c p).bi_allelic_stat.n2 = max a (max t g)) := by
  rcases mkStat_mf_cases a t g c p with h | h | h | h
  · left
    simp +decide [DnaBaseStat.bi_allelic_stat, h, mkStat_data, List.filter, maxByLast_three_val]
  · right; left
    simp +decide [DnaBaseStat.bi_allelic_stat, h, mkStat_data, List.filter, maxByLast_three_val]
  · right; right; left
    simp +decide [DnaBaseStat.bi_allelic_stat, h, mkStat_data, List.filter, maxByLast_three_val]
  · right; right; right
    simp +decide [DnaBaseStat.bi_allelic_stat, h, mkStat_data, List.filter, maxByLast_three_val]


theorem listMax_three (x y z : ℚ) : listMax [x, y, z] = max x (max y z) := rfl

theorem mkStat_n2_top2 (a t g c : ℚ) (p : Int) :
    (mkStat a t g c p).bi_allelic_stat.n2 = top2 a t g c := by
  have hn1 := mkStat_n1_val a t g c p
  rcases mkStat_bi_cases a t g c p with ⟨h1, h2, h3⟩ | ⟨h1, h2, h3⟩ | ⟨h1, h2, h3⟩ | ⟨h1, h2, h3⟩
  · have ht : top1 a t g c = a := by rw [← hn1, h2]
    rw [h3, top2, ht, List.erase_cons_head, listMax_three]
  · have ht : top1 a t g c = t := by rw [← hn1, h2]
    rw [h3, top2, ht]
    by_cases hat : a = t
    · subst hat
      rw [List.erase_cons_head, listMax_three]
    · rw [List.erase_cons_tail (by simp [hat]), List.erase_cons_head, listMax_three]
  · have ht : top1 a t g c = g := by rw [← hn1, h2]
    rw [h3, top2, ht]
    by_cases hag : a = g
    · subst hag
      rw [List.erase_cons_head, listMax_three, max_left_comm]
    · by_cases htg : t = g
      · subst htg
        rw [List.erase_cons_tail (by simp [hag]), List.erase_cons_head, listMax_three]
      · rw [List.erase_cons_tail (by simp [hag]), List.erase_cons_tail (by simp [htg]),
          List.erase_cons_head, listMax_three]
  · have ht : top1 a t g c = c := by rw [← hn1, h2]
    rw [h3, top2, ht]
    by_cases hac : a = c
    · subst hac
      rw [List.erase_cons_head, listMax_three]
      simp [max_comm, max_left_comm, max_assoc]
    · by_cases htc : t = c
      · subst htc
        rw [List.erase_cons_tail (by simp [hac]), List.erase_cons_head, listMax_three]
        simp [max_comm, max_left_comm, max_assoc]
      · by_cases hgc : g = c
        · subst hgc
          rw [List.erase_cons_tail (by simp [hac]), List.erase_cons_tail (by simp [htc]),
            List.erase_cons_head, listMax_three]
        · rw [List.erase_cons_tail (by simp [hac]), List.erase_cons_tail (by simp [htc]),
            List.erase_cons_tail (by simp [hgc])]
          simp [List.erase_cons_head, listMax_three]


theorem le_top1_a (a t g c : ℚ) : a ≤ top1 a t g c := by simp [top1, le_max_iff]
theorem le_top1_t (a t g c : ℚ) : t ≤ top1 a t g c := by simp [top1, le_max_iff]
theorem le_top1_g (a t g c : ℚ) : g ≤ top1 a t g c := by simp [top1, le_max_iff]
theorem le_top1_c (a t g c : ℚ) : c ≤ top1 a t g c := by simp [top1, le_max_iff]

theorem is_variable_iff (bf : BaseFilters) (s : DnaBaseStat) :
    bf.is_variable s = true ↔ 0 < s.bi_allelic_stat.n1 ∧ 0 < s.bi_allelic_stat.n2 := by
  simp [BaseFilters.is_variable]

theorem positiveBaseCount_mkStat (a t g c : ℚ) (p : Int) :
    positiveBaseCount (mkStat a t g c p) =
      (if 0 < a then 1 else 0) + (if 0 < t then 1 else 0) +
      (if 0 < g then 1 else 0) + (if 0 < c then 1 else 0) := by
  by_cases p1 : 0 < a <;> by_cases p2 : 0 < t <;> by_cases p3 : 0 < g <;> by_cases p4 : 0 < c <;>
    simp [positiveBaseCount, mkStat_get_A, mkStat_get_T, mkStat_get_G, mkStat_get_C,
      List.filter, p1, p2, p3, p4]

/-- C8: for every position stat (canonical four-count shape), `is_variable`
returns true if and only if at least two of the four nucleotide counts are
strictly positive; in particular it is false for an all-zero stat and for a
stat with exactly one nonzero count. -/
theorem C8_is_variable_iff_two_positive_bases (a t g c : ℚ) (p : Int) :
    BaseFilters.new.is_variable (mkStat a t g c p) = true ↔
      2 ≤ positiveBaseCount (mkStat a t g c p) := by
  rw [is_variable_iff, positiveBaseCount_mkStat]
  have hn1 := mkStat_n1_val a t g c p
  rcases mkStat_bi_cases a t g c p with ⟨h1, h2, h3⟩ | ⟨h1, h2, h3⟩ | ⟨h1, h2, h3⟩ | ⟨h1, h2, h3⟩
  · rw [h2, h3]
    have ht : top1 a t g c = a := by rw [← hn1, h2]
    have hta := le_top1_a a t g c
    have htt := le_top1_t a t g c
    have htg := le_top1_g a t g c
    have htc := le_top1_c a t g c
    rw [ht] at hta htt htg htc
    constructor
    · rintro ⟨hx, hy⟩
      rw [lt_max_iff, lt_max_iff] at hy
      rcases hy with h' | h' | h' <;> simp [hx, h'] <;> split_ifs <;> omega
    · intro h
      by_cases p1 : 0 < a <;> by_cases p2 : 0 < t <;> by_cases p3 : 0 < g <;> by_cases p4 : 0 < c <;>
        simp_all [lt_max_iff] <;> linarith
  · rw [h2, h3]
    have ht : top1 a t g c = t := by rw [← hn1, h2]
    have hta := le_top1_a a t g c
    have htt := le_top1_t a t g c
    have htg := le_top1_g a t g c
    have htc := le_top1_c a t g c
    rw [ht] at hta htt htg htc
    constructor
    · rintro ⟨hx, hy⟩
      rw [lt_max_iff, lt_max_iff] at hy
      rcases hy with h' | h' | h' <;> simp [hx, h'] <;> split_ifs <;> omega
    · intro h
      by_cases p1 : 0 < a <;> by_cases p2 : 0 < t <;> by_cases p3 : 0 < g <;> by_cases p4 : 0 < c <;>
        simp_all [lt_max_iff] <;> linarith
  · rw [h2, h3]
    have ht : top1 a t g c = g := by rw [← hn1, h2]
    have hta := le_top1_a a t g c
    have htt := le_top1_t a t g c
    have htg := le_top1_g a t g c
    have htc := le_top1_c a t g c
    rw [ht] at hta htt htg htc
    constructor
    · rintro ⟨hx, hy⟩
      rw [lt_max_iff, lt_max_iff] at hy
      rcases hy with h' | h' | h' <;> simp [hx, h'] <;> split_ifs <;> omega
    · intro h
      by_cases p1 : 0 < a <;> by_cases p2 : 0 < t <;> by_cases p3 : 0 < g <;> by_cases p4 : 0 < c <;>
        simp_all [lt_max_iff] <;> linarith
  · rw [h2, h3]
    have ht : top1 a t g c = c := by rw [← hn1, h2]
    have hta := le_top1_a a t g c
    have htt := le_top1_t a t g c
    have htg := le_top1_g a t g c
    have htc := le_top1_c a t g c
    rw [ht] at hta htt htg htc
    constructor
    · rintro ⟨hx, hy⟩
      rw [lt_max_iff, lt_max_iff] at hy
      rcases hy with h' | h' | h' <;> simp [hx, h'] <;> split_ifs <;> omega
    · intro h
      by_cases p1 : 0 < a <;> by_cases p2 : 0 < t <;> by_cases p3 : 0 < g <;> by_cases p4 : 0 < c <;>
        simp_all [lt_max_iff] <;> linarith

/-- C4: the code compares the raw top *count*, not its share of the total,
against `max_major_allele_cutoff`. At counts A=1, T=1, G=0, C=0 the code
returns `true` (top count 1 exceeds the cutoff 1 - 1e-4) although the top
allele's share of the total, 1/2, does not exceed the cutoff — refuting the
claim's "topCount divided by the sum of all four counts" reading, whose
default-cutoff part (1 - 1e-4) does hold. -/
theorem C4_near_invariant_compares_raw_count :
    BaseFilters.new.is_near_zero_variance (mkStat 1 1 0 0 0) = true ∧
    ¬ ((mkStat 1 1 0 0 0).most_frequent.2 / statTotal (mkStat 1 1 0 0 0)
        > BaseFilters.new.max_major_allele_cutoff) ∧
    BaseFilters.new.max_major_allele_cutoff = 1 - 1/10000 := by
  refine ⟨?_, ?_, rfl⟩
  · simp [BaseFilters.new, BaseFilters.is_near_zero_variance, mkStat,
      DnaBaseStat.most_frequent, maxByLast]
    norm_num
  · have h1 : (mkStat 1 1 0 0 0).most_frequent.2 = (1 : ℚ) := by
      simp [mkStat, DnaBaseStat.most_frequent, maxByLast]
      norm_num
    have h2 : statTotal (mkStat 1 1 0 0 0) = (2 : ℚ) := by
      simp [statTotal, mkStat]
      norm_num
    rw [h1, h2]
    show ¬ ((1 : ℚ) / 2 > BaseFilters.new.max_major_allele_cutoff)
    rw [show BaseFilters.new.max_major_allele_cutoff = 1 - 1/10000 from rfl]
    norm_num

/-- C5 (counterexample): at counts A=5, T=3, G=2, C=0 the code's
`b_allele_frequency` (5/8: top over top+second) differs from the claim's
`topCount / max(total, 1)` over all four counts (5/10). -/
theorem C5_counterexample :
    BaseFilters.new.b_allele_frequency (mkStat 5 3 2 0 0) ≠
      (mkStat 5 3 2 0 0).most_frequent.2 / max (statTotal (mkStat 5 3 2 0 0)) 1 := by
  have h1 : BaseFilters.new.b_allele_frequency (mkStat 5 3 2 0 0) = 5/8 := by
    simp +decide [BaseFilters.new, BaseFilters.b_allele_frequency, mkStat,
      DnaBaseStat.bi_allelic_stat, DnaBaseStat.most_frequent, maxByLast, List.filter]
    norm_num
  have h2 : (mkStat 5 3 2 0 0).most_frequent.2 = (5 : ℚ) := by
    simp [mkStat, DnaBaseStat.most_frequent, maxByLast]
    norm_num
  have h3 : statTotal (mkStat 5 3 2 0 0) = (10 : ℚ) := by
    simp [statTotal, mkStat]
    norm_num
  rw [h1, h2, h3]
  norm_num

/-- C5 (amended): `b_allele_frequency` returns top / max(top + second, 1)
where top and second are the largest and second-largest of the four counts
(the second-largest being the maximum after removing one occurrence of the
maximum); on the all-zero stat it returns 0 rather than an absent value. -/
theorem C5_b_allele_frequency_top_two (a t g c : ℚ) (p : Int) :
    BaseFilters.new.b_allele_frequency (mkStat a t g c p)
        = top1 a t g c / max (top1 a t g c + top2 a t g c) 1 ∧
      BaseFilters.new.b_allele_frequency (mkStat 0 0 0 0 p) = 0 := by
  constructor
  · have h : BaseFilters.new.b_allele_frequency (mkStat a t g c p)
        = (mkStat a t g c p).bi_allelic_stat.n1 /
          max ((mkStat a t g c p).bi_allelic_stat.n1 + (mkStat a t g c p).bi_allelic_stat.n2) 1 :=
      rfl
    rw [h, mkStat_n1_val, mkStat_n2_top2]
  · have h : BaseFilters.new.b_allele_frequency (mkStat 0 0 0 0 p)
        = (mkStat 0 0 0 0 p).bi_allelic_stat.n1 /
          max ((mkStat 0 0 0 0 p).bi_allelic_stat.n1 + (mkStat 0 0 0 0 p).bi_allelic_stat.n2) 1 :=
      rfl
    rw [h, mkStat_n1_val, mkStat_n2_top2]
    norm_num [top1, top2, listMax]



/-! ### Interval partitioning: spec-side characterisation of `make_intervals` -/

def ceilN (d B : Int) : Nat := if d ≤ 0 then 0 else ((d - 1).toNat / B.toNat) + 1

theorem ceilN_nonpos (d B : Int) (h : d ≤ 0) : ceilN d B = 0 := by simp [ceilN, h]

theorem ceilN_step (d B : Int) (hB : 1 ≤ B) (hd : 0 < d) :
    ceilN d B = ceilN (d - B) B + 1 := by
  by_cases h : d - B ≤ 0
  · have h1 : (d - 1).toNat < B.toNat := by omega
    rw [ceilN_nonpos _ _ h]
    unfold ceilN
    rw [if_neg (by omega : ¬ d ≤ 0), Nat.div_eq_of_lt h1]
  · unfold ceilN
    rw [if_neg (by omega : ¬ d ≤ 0), if_neg (by omega : ¬ d - B ≤ 0)]
    have h1 : (d - 1).toNat = (d - B - 1).toNat + B.toNat := by omega
    rw [h1, Nat.add_div_right _ (by omega : 0 < B.toNat)]

theorem make_intervals_go_spec (B : Int) (hB : 1 ≤ B) :
    ∀ (fuel : Nat) (L lb : Int), L - lb ≤ (fuel : Int) * B →
      make_intervals_go L B fuel lb =
        (List.range (ceilN (L - lb) B)).map
          (fun (i : Nat) => (lb + (i : Int) * B, min L (lb + ((i : Int) + 1) * B)))
  | 0, L, lb, h => by
      rw [ceilN_nonpos _ _ (by simpa using h)]
      rfl
  | fuel + 1, L, lb, h => by
      by_cases hlt : lb < L
      · have hih := make_intervals_go_spec B hB fuel L (lb + B)
          (by push_cast at h ⊢; linarith)
        have hd : L - (lb + B) = L - lb - B := by ring
        rw [make_intervals_go, if_pos hlt, hih, hd,
          ceilN_step (L - lb) B hB (by omega), List.range_succ_eq_map, List.map_cons,
          List.map_map]
        congr 1
        · norm_num
        · congr 1
          funext i
          simp only [Function.comp]
          push_cast
          rw [Prod.mk.injEq]
          constructor
          · ring
          · congr 1
            ring
      · rw [make_intervals_go, if_neg hlt, ceilN_nonpos _ _ (by omega)]
        rfl

theorem make_intervals_eq (L B : Int) (hB : 1 ≤ B) :
    make_intervals L B =
      (List.range (ceilN L B)).map
        (fun (i : Nat) => ((i : Int) * B, min L ((i : Int) * B + B))) := by
  have hfuel : L - 0 ≤ (L.toNat : Int) * B := by
    calc L - 0 ≤ (L.toNat : Int) := by omega
    _ = (L.toNat : Int) * 1 := by ring
    _ ≤ (L.toNat : Int) * B := by
        apply mul_le_mul_of_nonneg_left hB
        positivity
  rw [make_intervals, make_intervals_go_spec B hB L.toNat L 0 hfuel]
  have hL0 : L - 0 = L := by ring
  rw [hL0]
  congr 1
  funext i
  rw [Prod.mk.injEq]
  constructor
  · ring
  · congr 1
    ring

theorem lt_ceilN_mul_le (L B : Int) (hB : 1 ≤ B) (k : Nat) (hk : k < ceilN L B) :
    (k : Int) * B ≤ L - 1 := by
  unfold ceilN at hk
  by_cases h : L ≤ 0
  · rw [if_pos h] at hk
    omega
  · rw [if_neg h] at hk
    have hk2 : k ≤ (L - 1).toNat / B.toNat := by omega
    have hk3 : k * B.toNat ≤ (L - 1).toNat := by
      calc k * B.toNat ≤ ((L - 1).toNat / B.toNat) * B.toNat :=
        Nat.mul_le_mul_right _ hk2
      _ ≤ (L - 1).toNat := Nat.div_mul_le_self _ _
    have hcast : ((k * B.toNat : Nat) : Int) = (k : Int) * B := by
      push_cast
      rw [Int.toNat_of_nonneg (by omega : (0:Int) ≤ B)]
    omega

theorem le_ceilN_mul (L B : Int) (hB : 1 ≤ B) : L ≤ (ceilN L B : Int) * B := by
  unfold ceilN
  by_cases h : L ≤ 0
  · rw [if_pos h]
    simpa using h
  · rw [if_neg h]
    have hdm := Nat.div_add_mod (L - 1).toNat B.toNat
    have hmlt : (L - 1).toNat % B.toNat < B.toNat := Nat.mod_lt _ (by omega)
    have hgoal : (L - 1).toNat + 1 ≤ ((L - 1).toNat / B.toNat + 1) * B.toNat := by
      rw [Nat.succ_mul]
      rw [mul_comm] at hdm
      omega
    have hcast : ((((L - 1).toNat / B.toNat + 1) * B.toNat : Nat) : Int)
        = (((L - 1).toNat / B.toNat + 1 : Nat) : Int) * B := by
      push_cast
      rw [Int.toNat_of_nonneg (by omega : (0:Int) ≤ B)]
    omega

theorem ceilN_eq_nat (L B : Int) (hL : 0 ≤ L) (hB : 0 < B) :
    ceilN L B = (L.toNat + B.toNat - 1) / B.toNat := by
  unfold ceilN
  by_cases h : L ≤ 0
  · rw [if_pos h]
    have hz : L = 0 := le_antisymm h hL
    subst hz
    simp
    exact (Nat.div_eq_of_lt (by omega)).symm
  · rw [if_neg h]
    have h1 : L.toNat + B.toNat - 1 = (L - 1).toNat + B.toNat := by omega
    rw [h1, Nat.add_div_right _ (by omega : 0 < B.toNat)]

theorem make_intervals_length (L B : Int) (hB : 1 ≤ B) :
    (make_intervals L B).length = ceilN L B := by
  rw [make_intervals_eq L B hB, List.length_map, List.length_range]

theorem make_intervals_get (L B : Int) (hB : 1 ≤ B) (i : Nat)
    (h : i < (make_intervals L B).length) :
    (make_intervals L B).get ⟨i, h⟩ = ((i : Int) * B, min L ((i : Int) * B + B)) := by
  rw [List.get_eq_getElem]
  simp only [make_intervals_eq L B hB, List.getElem_map, List.getElem_range]

/-- C7: for length ≥ 0 and blockSize > 0, `make_intervals` returns exactly
ceil(length / blockSize) half-open intervals; the i-th is
[i*blockSize, min(length, (i+1)*blockSize)); they tile [0, length) exactly,
are contiguous and non-overlapping, every interval except possibly the last
has size blockSize, and the last interval ends at length. -/
theorem C7_make_intervals_partition (L B : Int) (hL : 0 ≤ L) (hB : 0 < B) :
    (make_intervals L B).length = (L.toNat + B.toNat - 1) / B.toNat ∧
    (∀ i : Nat, ∀ h : i < (make_intervals L B).length,
      (make_intervals L B).get ⟨i, h⟩ = ((i : Int) * B, min L ((i : Int) * B + B))) ∧
    (∀ x : Int, (0 ≤ x ∧ x < L) ↔ ∃ iv ∈ make_intervals L B, iv.1 ≤ x ∧ x < iv.2) ∧
    (∀ i : Nat, ∀ h : i + 1 < (make_intervals L B).length,
      ((make_intervals L B).get ⟨i, by omega⟩).2 = ((make_intervals L B).get ⟨i + 1, h⟩).1 ∧
      ((make_intervals L B).get ⟨i, by omega⟩).2 - ((make_intervals L B).get ⟨i, by omega⟩).1
        = B) ∧
    (∀ i j : Nat, ∀ hi : i < (make_intervals L B).length,
      ∀ hj : j < (make_intervals L B).length, i < j →
      ((make_intervals L B).get ⟨i, hi⟩).2 ≤ ((make_intervals L B).get ⟨j, hj⟩).1) ∧
    (∀ hne : make_intervals L B ≠ [], ((make_intervals L B).getLast hne).2 = L) := by
  have hB1 : 1 ≤ B := hB
  have hlen := make_intervals_length L B hB1
  have hget := make_intervals_get L B hB1
  refine ⟨by rw [hlen, ceilN_eq_nat L B hL hB], hget, ?_, ?_, ?_, ?_⟩
  · intro x
    constructor
    · rintro ⟨hx0, hxL⟩
      have hL1 : 0 < L := by omega
      have hq0 : 0 ≤ x / B := Int.ediv_nonneg hx0 (by omega)
      have hqB : x / B * B ≤ x := Int.ediv_mul_le x (by omega)
      have hde := Int.ediv_add_emod x B
      have hmod : x % B < B := Int.emod_lt_of_pos x hB
      have hmod0 : 0 ≤ x % B := Int.emod_nonneg x (by omega)
      have hxlt : x < x / B * B + B := by
        rw [mul_comm] at hqB ⊢
        omega
      have hqle : x / B ≤ (L - 1) / B := by
        rw [Int.le_ediv_iff_mul_le hB]
        omega
      have hcast : (((L - 1).toNat / B.toNat : Nat) : Int) = (L - 1) / B := by
        rw [Int.ofNat_ediv, Int.toNat_of_nonneg (by omega : (0:Int) ≤ L - 1),
          Int.toNat_of_nonneg (by omega : (0:Int) ≤ B)]
      have hqceil : (x / B).toNat < ceilN L B := by
        unfold ceilN
        rw [if_neg (by omega : ¬ L ≤ 0)]
        omega
      refine ⟨(((x / B).toNat : Int) * B, min L (((x / B).toNat : Int) * B + B)), ?_, ?_, ?_⟩
      · rw [make_intervals_eq L B hB1]
        exact List.mem_map.mpr ⟨(x / B).toNat, List.mem_range.mpr hqceil, rfl⟩
      · rw [Int.toNat_of_nonneg hq0]
        exact hqB
      · rw [Int.toNat_of_nonneg hq0]
        exact lt_min hxL hxlt
    · rintro ⟨iv, hmem, hx1, hx2⟩
      rw [make_intervals_eq L B hB1] at hmem
      rcases List.mem_map.mp hmem with ⟨i, _hi, rfl⟩
      have h1 : (0:Int) ≤ (i : Int) * B := by positivity
      refine ⟨by omega, ?_⟩
      have h2 : x < min L ((i : Int) * B + B) := hx2
      have h3 : min L ((i : Int) * B + B) ≤ L := min_le_left _ _
      omega
  · intro i h
    have hi : i < (make_intervals L B).length := by omega
    rw [hget i hi, hget (i + 1) h]
    have hnext : ((i : Int) + 1) * B ≤ L - 1 := by
      have := lt_ceilN_mul_le L B hB1 (i + 1) (by omega)
      push_cast at this
      omega
    have hmin : min L ((i : Int) * B + B) = (i : Int) * B + B := by
      rw [min_eq_right]
      push_cast at hnext ⊢
      nlinarith [hnext]
    constructor
    · rw [hmin]
      push_cast
      ring
    · rw [hmin]
      ring
  · intro i j hi hj hij
    rw [hget i hi, hget j hj]
    have h1 : ((i : Int) + 1) * B ≤ (j : Int) * B := by
      apply mul_le_mul_of_nonneg_right _ (by omega : (0:Int) ≤ B)
      omega
    calc min L ((i : Int) * B + B) ≤ (i : Int) * B + B := min_le_right _ _
    _ = ((i : Int) + 1) * B := by ring
    _ ≤ (j : Int) * B := h1
  · intro hne
    have hlen0 : 0 < (make_intervals L B).length := List.length_pos.mpr hne
    have hceil : L ≤ (ceilN L B : Int) * B := le_ceilN_mul L B hB1
    rw [List.getLast_eq_getElem]
    simp only [make_intervals_eq L B hB1, List.getElem_map, List.getElem_range,
      List.length_map, List.length_range]
    have h2 : ((ceilN L B - 1 : Nat) : Int) = (ceilN L B : Int) - 1 := by omega
    have h1 : ((ceilN L B - 1 : Nat) : Int) * B + B = (ceilN L B : Int) * B := by
      rw [h2]; ring
    rw [h1, min_eq_left hceil]

/-- Witness for C7 at length 25, block size 10. -/
theorem C7_make_intervals_partition_witness :
    (0:Int) ≤ 25 ∧ (0:Int) < 10 ∧ (make_intervals 25 10).length = 3 := by
  refine ⟨by norm_num, by norm_num, ?_⟩
  have h := (C7_make_intervals_partition 25 10 (by norm_num) (by norm_num)).1
  simpa using h

/-! ### util/bam.rs and the BAM I/O model -/

/-- `BamSample` / `Sample` from `util/bam.rs`: either the whole-file
`Combined` bucket or a `CB`-tag cell barcode. -/
inductive Sample where
  | Combined
  | Barcode (cb : String)
deriving DecidableEq

/-- One alignment record, as far as `get_dna_base_freq` observes it:
its reference-sequence name, optional `CB` barcode tag, duplicate flag,
reverse-strand flag, base-call sequence, and the aligned
(read position, genome position) pairs produced by `aligned_pairs()`. -/
structure BamRec where
  chr : String
  cb : Option String
  is_dup : Bool
  is_rev : Bool
  seq : List Char
  aligned : List (Nat × Int)
deriving DecidableEq

/-- The indexed BAM file: header target (name, length) pairs and records. -/
structure ModelBam where
  header : List (String × Int)
  recs : List BamRec
deriving DecidableEq

/-- Indexed region fetch (htslib `fetch` + `records()`): the records of the
named sequence whose aligned base pairs overlap the half-open region. -/
def ModelBam.fetch (bam : ModelBam) (chr : String) (lb ub : Int) : List BamRec :=
  bam.recs.filter (fun r =>
    decide (r.chr = chr) && r.aligned.any (fun q => decide (lb ≤ q.2) && decide (q.2 < ub)))

/-! ### Association-list counterparts of the `HashMap` operations -/

def alookup {α β : Type} [DecidableEq α] : List (α × β) → α → Option β
  | [], _ => none
  | (k, v) :: rest, key => if k = key then some v else alookup rest key

/-- Update the value stored under `key`, if present (`get_mut`). -/
def amodify {α β : Type} [DecidableEq α] (f : β → β) (key : α) : List (α × β) → List (α × β)
  | [] => []
  | (k, v) :: rest => if k = key then (k, f v) :: rest else (k, v) :: amodify f key rest

/-- `HashMap::insert`: replace the value if the key exists, else append. -/
def ainsert {α β : Type} [DecidableEq α] (key : α) (v : β) : List (α × β) → List (α × β)
  | [] => [(key, v)]
  | (k, w) :: rest => if k = key then (key, v) :: rest else (k, w) :: ainsert key v rest

/-- In-place update of the element at an index; out of range leaves the
list unchanged (`Vec::get_mut` returning `None`). -/
def modifyAt {α : Type} (f : α → α) : Nat → List α → List α
  | _, [] => []
  | 0, x :: rest => f x :: rest
  | n + 1, x :: rest => x :: modifyAt f n rest

/-- `HashSet::insert` on a duplicate-free list. -/
def hsInsert (l : List Int) (x : Int) : List Int :=
  if x ∈ l then l else l ++ [x]

/-- `HashSet::extend`. -/
def hsExtend (l : List Int) (xs : List Int) : List Int :=
  xs.foldl hsInsert l

/-! ### util/dna.rs : `DnaStatMap` and `get_dna_base_freq` -/

/-- `DnaStatMap`: per-sample forward/reverse stat vectors, plus the sample
list in insertion order (`id2samp`; the dense `samp2id` id indirection of
the Rust `HashMap<usize, Vec<_>>` is flattened into keying by `Sample`). -/
structure DnaStatMap where
  forward : List (Sample × List DnaBaseStat)
  reverse : List (Sample × List DnaBaseStat)
  id2samp : List Sample
deriving DecidableEq

def DnaStatMap.new : DnaStatMap := ⟨[], [], []⟩

def DnaStatMap.has_sample (m : DnaStatMap) (k : Sample) : Bool :=
  decide (k ∈ m.id2samp)

def DnaStatMap.samples (m : DnaStatMap) : List Sample := m.id2samp

/-- The zero-count stat vector for `[lb, ub)` pushed by `new_sample`. -/
def zeroStats (lb ub : Int) : List DnaBaseStat :=
  (List.range (ub - lb).toNat).map (fun i => DnaBaseStat.new (lb + (i : Int)))

def DnaStatMap.new_sample (m : DnaStatMap) (k : Sample) (lb ub : Int) : DnaStatMap :=
  if m.has_sample k then m
  else
    { forward := m.forward ++ [(k, zeroStats lb ub)],
      reverse := m.reverse ++ [(k, zeroStats lb ub)],
      id2samp := m.id2samp ++ [k] }

def DnaStatMap.get_forward (m : DnaStatMap) (k : Sample) : Option (List DnaBaseStat) :=
  alookup m.forward k

def DnaStatMap.get_reverse (m : DnaStatMap) (k : Sample) : Option (List DnaBaseStat) :=
  alookup m.reverse k

/-- `get_forward_base_mut` composed with the caller's `if let Some` update:
missing sample or out-of-range index leaves the map unchanged. -/
def DnaStatMap.update_forward_base (m : DnaStatMap) (k : Sample) (j : Nat)
    (f : DnaBaseStat → DnaBaseStat) : DnaStatMap :=
  { m with forward := amodify (modifyAt f j) k m.forward }

def DnaStatMap.update_reverse_base (m : DnaStatMap) (k : Sample) (j : Nat)
    (f : DnaBaseStat → DnaBaseStat) : DnaStatMap :=
  { m with reverse := amodify (modifyAt f j) k m.reverse }

/-- The `match bp` arm of the per-base loop: bump the matching count,
ignore every other symbol. -/
def baseUpdate (bp : Char) (freq : DnaBaseStat) : DnaBaseStat :=
  if bp = 'A' ∨ bp = 'a' then freq.add Dna.A 1
  else if bp = 'T' ∨ bp = 't' then freq.add Dna.T 1
  else if bp = 'G' ∨ bp = 'g' then freq.add Dna.G 1
  else if bp = 'C' ∨ bp = 'c' then freq.add Dna.C 1
  else freq

/-- The resolved sample identity of a record: its `CB` barcode when the
tag is present, `Combined` otherwise. -/
def recSample (r : BamRec) : Sample :=
  match r.cb with
  | some cb => Sample.Barcode cb
  | none => Sample.Combined

/-- The body of the `for [rpos, gpos] in rec.aligned_pairs()` loop of
`get_dna_base_freq`: skip genome positions outside `[lb, ub)`, look up the
read base, and accumulate it into `sid`'s table on the record's strand. -/
def scan_step (r : BamRec) (sid : Sample) (lb ub : Int) (ret : DnaStatMap)
    (rg : Nat × Int) : DnaStatMap :=
  if rg.2 < lb ∨ rg.2 ≥ ub then ret
  else
    match r.seq.get? rg.1 with
    | none => ret
    | some bp =>
      if r.is_rev then ret.update_reverse_base sid (rg.2 - lb).toNat (baseUpdate bp)
      else ret.update_forward_base sid (rg.2 - lb).toNat (baseUpdate bp)

/-- The body of the per-record loop of `get_dna_base_freq`: resolve the
sample from the `CB` tag (lazily allocating its tables), then accumulate
each aligned base falling inside `[lb, ub)` into that sample's table on
the record's strand. -/
def scan_record (lb ub : Int) (ret : DnaStatMap) (r : BamRec) : DnaStatMap :=
  let ret := match r.cb with
    | some cb => ret.new_sample (Sample.Barcode cb) lb ub
    | none => ret
  r.aligned.foldl (scan_step r (recSample r) lb ub) ret

/-- `get_dna_base_freq` from `util/dna.rs`. Errors exactly as the source:
`lb >= ub`, or an empty record list after dropping duplicates. (The
I/O-level `fetch` panic path `expect("unable to fetch the region")` has no
counterpart in the pure model.) -/
def get_dna_base_freq (bam : ModelBam) (region : String × Int × Int) :
    Except String DnaStatMap :=
  let chr := region.1
  let lb := region.2.1
  let ub := region.2.2
  if lb ≥ ub then Except.error "lb >= ub"
  else
    let bam_records := (bam.fetch chr lb ub).filter (fun r => !r.is_dup)
    if bam_records.length < 1 then Except.error "Empty region"
    else
      Except.ok (bam_records.foldl (scan_record lb ub)
        (DnaStatMap.new.new_sample Sample.Combined lb ub))

/-! ### sift/sifter.rs : `BamSifter` -/

/-- `BamSifter` state: the shared reader (here the pure `ModelBam`), the
per-sequence block job list, the per-strand variable-position maps
(`HashSet` iteration order exposed as list order), and the stat tables
keyed by `(Sample, sequence name)`. -/
structure BamSifter where
  bam : ModelBam
  jobs : List (String × List (Int × Int))
  forward_variable_map : List (String × List Int)
  reverse_variable_map : List (String × List Int)
  forward_stat : List ((Sample × String) × List DnaBaseStat)
  reverse_stat : List ((Sample × String) × List DnaBaseStat)
deriving DecidableEq

/-- `BamSifter::from_file`: jobs from the header layout (block size
defaulting to 10000), everything else empty. (Index checking/building is
I/O-only and has no pure counterpart.) -/
def BamSifter.from_file (bam : ModelBam) (block_size : Option Nat) : BamSifter :=
  let bs : Int := match block_size with
    | some x => (x : Int)
    | none => 10000
  { bam := bam,
    jobs := bam.header.map (fun nt => (nt.1, make_intervals nt.2 bs)),
    forward_variable_map := [],
    reverse_variable_map := [],
    forward_stat := [],
    reverse_stat := [] }

/-- `BamSifter::variable_bases`: positions whose stat passes `is_variable`,
per strand, over all samples of the region's frequency map. -/
def BamSifter.variable_bases (s : BamSifter) (chr : String) (start stop : Int) :
    Except String (List Int × List Int) :=
  match get_dna_base_freq s.bam (chr, start, stop) with
  | Except.error _ => Except.error "empty stat map"
  | Except.ok freq_map =>
    let base_filter := BaseFilters.new
    let forward := freq_map.samples.foldl (fun acc samp =>
      match freq_map.get_forward samp with
      | some stats =>
          acc ++ (stats.filter (fun bs => base_filter.is_variable bs)).map DnaBaseStat.position
      | none => acc) []
    let reverse := freq_map.samples.foldl (fun acc samp =>
      match freq_map.get_reverse samp with
      | some stats =>
          acc ++ (stats.filter (fun bs => base_filter.is_variable bs)).map DnaBaseStat.position
      | none => acc) []
    Except.ok (forward, reverse)

/-- `BamSifter::find_variable_positions`: union the per-block variable
positions into per-strand sets. The `rayon` `par_bridge` iteration is
modelled as a sequential fold in the given block order; the only error
path of the source (`try_lock` contention) cannot occur sequentially, so
the result is total, and a failed `variable_bases` block contributes
nothing. -/
def sift_block_step (s : BamSifter) (chr : String) (acc : List Int × List Int)
    (b : Int × Int) : List Int × List Int :=
  match s.variable_bases chr b.1 b.2 with
  | Except.ok positions => (hsExtend acc.1 positions.1, hsExtend acc.2 positions.2)
  | Except.error _ => acc

def BamSifter.find_variable_positions (s : BamSifter) (chr : String)
    (blocks : List (Int × Int)) : List Int × List Int :=
  blocks.foldl (sift_block_step s chr) ([], [])

/-- `BamSifter::sweep_variable_positions`: insert each sequence's
per-strand position sets into the variable maps. -/
def BamSifter.sweep_variable_positions (s : BamSifter) : BamSifter :=
  s.jobs.foldl (fun acc cb =>
    let vp := BamSifter.find_variable_positions acc cb.1 cb.2
    { acc with
      forward_variable_map := ainsert cb.1 vp.1 acc.forward_variable_map,
      reverse_variable_map := ainsert cb.1 vp.2 acc.reverse_variable_map }) s

/-- `add_forward_positions` / `add_reverse_positions`: for each sequence of
the other sifter's map, extend the receiver's set — but only if the
receiver's map already has that sequence (`get_mut`). -/
def add_positions_map (self other : List (String × List Int)) : List (String × List Int) :=
  other.foldl (fun acc kv =>
    match alookup acc kv.1 with
    | some _ => amodify (fun cur => hsExtend cur kv.2) kv.1 acc
    | none => acc) self

/-- `BamSifter::add_missed_positions` (the reconcile step). -/
def BamSifter.add_missed_positions (s : BamSifter) (other : BamSifter) : BamSifter :=
  { s with
    forward_variable_map := add_positions_map s.forward_variable_map other.forward_variable_map,
    reverse_variable_map := add_positions_map s.reverse_variable_map other.reverse_variable_map }

/-- The stat-table push of `populate_statistics`:
`entry(key).or_insert(vec![])` followed by pushing every element of `xs`. -/
def entryAppend (m : List ((Sample × String) × List DnaBaseStat)) (key : Sample × String)
    (xs : List DnaBaseStat) : List ((Sample × String) × List DnaBaseStat) :=
  match alookup m key with
  | some _ => amodify (fun cur => cur ++ xs) key m
  | none => m ++ [(key, xs)]

/-- One position's work inside `populate_statistics`: fetch the region and,
for every sample of the result, append its forward stats to the forward
table and its reverse stats to the reverse table (a failed fetch
contributes nothing, per the source's `if let Ok`). -/
def accumulate_region (bam : ModelBam)
    (acc : List ((Sample × String) × List DnaBaseStat) ×
           List ((Sample × String) × List DnaBaseStat))
    (region : String × Int × Int) :
    List ((Sample × String) × List DnaBaseStat) ×
    List ((Sample × String) × List DnaBaseStat) :=
  match get_dna_base_freq bam region with
  | Except.error _ => acc
  | Except.ok freq_map =>
    freq_map.samples.foldl (fun acc samp =>
      (entryAppend acc.1 (samp, region.1) ((freq_map.get_forward samp).getD []),
       entryAppend acc.2 (samp, region.1) ((freq_map.get_reverse samp).getD []))) acc

/-- `BamSifter::populate_statistics`: for every sequence of the *forward*
variable map and every position in its set (in iteration order), issue the
single-position fetch `[pos, pos+1)` and accumulate the per-sample stats. -/
def BamSifter.populate_statistics (s : BamSifter) : BamSifter :=
  let fr := s.forward_variable_map.foldl (fun acc cp =>
      cp.2.foldl (fun acc p => accumulate_region s.bam acc (cp.1, p, p + 1)) acc)
    (s.forward_stat, s.reverse_stat)
  { s with forward_stat := fr.1, reverse_stat := fr.2 }


/-! ### Lemmas about the association-list and hash-set operations -/

theorem alookup_not_mem {α β : Type} [DecidableEq α] (l : List (α × β)) (k : α)
    (h : k ∉ l.map Prod.fst) : alookup l k = none := by
  induction l with
  | nil => rfl
  | cons kv rest ih =>
    obtain ⟨k1, v1⟩ := kv
    simp only [List.map_cons, List.mem_cons] at h
    push_neg at h
    show (if k1 = k then some v1 else alookup rest k) = none
    rw [if_neg (fun he => h.1 he.symm)]
    exact ih h.2

theorem alookup_append {α β : Type} [DecidableEq α] (l1 l2 : List (α × β)) (k : α) :
    alookup (l1 ++ l2) k =
      match alookup l1 k with
      | some v => some v
      | none => alookup l2 k := by
  induction l1 with
  | nil => rfl
  | cons kv rest ih =>
    obtain ⟨k1, v1⟩ := kv
    by_cases h : k1 = k
    · simp [alookup, h]
    · show (if k1 = k then some v1 else alookup (rest ++ l2) k) = _
      rw [if_neg h, ih]
      show _ = (match (if k1 = k then some v1 else alookup rest k) with
        | some v => some v
        | none => alookup l2 k)
      rw [if_neg h]

theorem alookup_amodify_self {α β : Type} [DecidableEq α] (f : β → β) (k : α)
    (l : List (α × β)) : alookup (amodify f k l) k = (alookup l k).map f := by
  induction l with
  | nil => rfl
  | cons kv rest ih =>
    obtain ⟨k1, v1⟩ := kv
    by_cases h : k1 = k
    · simp [amodify, alookup, h]
    · show alookup (if k1 = k then (k1, f v1) :: rest else (k1, v1) :: amodify f k rest) k = _
      rw [if_neg h]
      show (if k1 = k then some v1 else alookup (amodify f k rest) k) = _
      rw [if_neg h, ih]
      show _ = Option.map f (if k1 = k then some v1 else alookup rest k)
      rw [if_neg h]

theorem alookup_amodify_ne {α β : Type} [DecidableEq α] (f : β → β) (k k' : α)
    (h : k' ≠ k) (l : List (α × β)) : alookup (amodify f k l) k' = alookup l k' := by
  induction l with
  | nil => rfl
  | cons kv rest ih =>
    obtain ⟨k1, v1⟩ := kv
    by_cases h2 : k1 = k
    · show alookup (if k1 = k then (k1, f v1) :: rest else (k1, v1) :: amodify f k rest) k' = _
      rw [if_pos h2]
      show (if k1 = k' then some (f v1) else alookup rest k') = _
      have hne : ¬ k1 = k' := by
        intro he
        exact h (by rw [← he, h2])
      rw [if_neg hne]
      show _ = (if k1 = k' then some v1 else alookup rest k')
      rw [if_neg hne]
    · show alookup (if k1 = k then (k1, f v1) :: rest else (k1, v1) :: amodify f k rest) k' = _
      rw [if_neg h2]
      show (if k1 = k' then some v1 else alookup (amodify f k rest) k') = _
      by_cases h3 : k1 = k'
      · rw [if_pos h3]
        show _ = (if k1 = k' then some v1 else alookup rest k')
        rw [if_pos h3]
      · rw [if_neg h3, ih]
        show _ = (if k1 = k' then some v1 else alookup rest k')
        rw [if_neg h3]

theorem amodify_keys {α β : Type} [DecidableEq α] (f : β → β) (k : α) (l : List (α × β)) :
    (amodify f k l).map Prod.fst = l.map Prod.fst := by
  induction l with
  | nil => rfl
  | cons kv rest ih =>
    obtain ⟨k1, v1⟩ := kv
    by_cases h : k1 = k
    · simp [amodify, h]
    · show ((if k1 = k then (k1, f v1) :: rest else (k1, v1) :: amodify f k rest)).map Prod.fst = _
      rw [if_neg h]
      simp only [List.map_cons, ih]


theorem hsInsert_mem (l : List Int) (x y : Int) :
    y ∈ hsInsert l x ↔ y ∈ l ∨ y = x := by
  unfold hsInsert
  by_cases h : x ∈ l
  · rw [if_pos h]
    constructor
    · exact fun hy => Or.inl hy
    · rintro (hy | rfl)
      · exact hy
      · exact h
  · rw [if_neg h]
    simp

theorem hsExtend_mem (xs : List Int) : ∀ (l : List Int) (y : Int),
    y ∈ hsExtend l xs ↔ y ∈ l ∨ y ∈ xs := by
  induction xs with
  | nil => intro l y; simp [hsExtend]
  | cons x rest ih =>
    intro l y
    show y ∈ hsExtend (hsInsert l x) rest ↔ _
    rw [show hsExtend (hsInsert l x) rest = hsExtend (hsInsert l x) rest from rfl, ih,
      hsInsert_mem]
    simp only [List.mem_cons]
    tauto

theorem hsInsert_toFinset (l : List Int) (x : Int) :
    (hsInsert l x).toFinset = insert x l.toFinset := by
  unfold hsInsert
  by_cases h : x ∈ l
  · rw [if_pos h]
    have hx : x ∈ l.toFinset := List.mem_toFinset.mpr h
    rw [Finset.insert_eq_self.mpr hx]
  · rw [if_neg h]
    ext z
    simp
    tauto

theorem hsExtend_toFinset (xs : List Int) : ∀ (l : List Int),
    (hsExtend l xs).toFinset = l.toFinset ∪ xs.toFinset := by
  induction xs with
  | nil => intro l; simp [hsExtend]
  | cons x rest ih =>
    intro l
    show (hsExtend (hsInsert l x) rest).toFinset = _
    rw [ih, hsInsert_toFinset]
    ext z
    simp

theorem add_positions_map_keys (self other : List (String × List Int)) :
    (add_positions_map self other).map Prod.fst = self.map Prod.fst := by
  induction other generalizing self with
  | nil => rfl
  | cons kv rest ih =>
    have hstep : add_positions_map self (kv :: rest)
        = add_positions_map (match alookup self kv.1 with
            | some _ => amodify (fun cur => hsExtend cur kv.2) kv.1 self
            | none => self) rest := rfl
    rw [hstep, ih]
    rcases h : alookup self kv.1 with _ | v
    · simp [h]
    · simp [h, amodify_keys]

theorem alookup_add_positions_map (self other : List (String × List Int))
    (hnd : (other.map Prod.fst).Nodup) (k : String) :
    alookup (add_positions_map self other) k =
      match alookup self k, alookup other k with
      | some cur, some new => some (hsExtend cur new)
      | some cur, none => some cur
      | none, _ => none := by
  induction other generalizing self with
  | nil =>
    show alookup self k = _
    rcases alookup self k with _ | v <;> rfl
  | cons kv rest ih =>
    obtain ⟨k1, v1⟩ := kv
    simp only [List.map_cons, List.nodup_cons] at hnd
    have hstep : add_positions_map self ((k1, v1) :: rest)
        = add_positions_map (match alookup self k1 with
            | some _ => amodify (fun cur => hsExtend cur v1) k1 self
            | none => self) rest := rfl
    rw [hstep, ih _ hnd.2]
    by_cases hk : k1 = k
    · subst hk
      have hrest : alookup rest k1 = none := alookup_not_mem rest k1 hnd.1
      rw [hrest]
      show _ = (match alookup self k1, (if k1 = k1 then some v1 else alookup rest k1) with
        | some cur, some new => some (hsExtend cur new)
        | some cur, none => some cur
        | none, _ => none)
      rw [if_pos rfl]
      rcases h : alookup self k1 with _ | cur
      · simp [h]
      · simp only [h]
        rw [alookup_amodify_self]
        rw [h]
        rfl
    · show (match alookup (match alookup self k1 with
            | some _ => amodify (fun cur => hsExtend cur v1) k1 self
            | none => self) k, alookup rest k with
        | some cur, some new => some (hsExtend cur new)
        | some cur, none => some cur
        | none, _ => none) = _
      have hpres : alookup (match alookup self k1 with
          | some _ => amodify (fun cur => hsExtend cur v1) k1 self
          | none => self) k = alookup self k := by
        rcases h : alookup self k1 with _ | cur
        · rfl
        · exact alookup_amodify_ne _ _ _ (fun he => hk he.symm) self
      rw [hpres]
      show _ = (match alookup self k, (if k1 = k then some v1 else alookup rest k) with
        | some cur, some new => some (hsExtend cur new)
        | some cur, none => some cur
        | none, _ => none)
      rw [if_neg hk]



/-! ### Concrete test fixtures (synthetic BAM files) -/

/-- Two forward reads at position 0 of `chr1` carrying different bases. -/
def exBamA : ModelBam :=
  ⟨[("chr1", 1)], [⟨"chr1", none, false, false, ['A'], [(0, 0)]⟩,
                   ⟨"chr1", none, false, false, ['T'], [(0, 0)]⟩]⟩

/-- Two forward reads at position 0 of `chr2` carrying different bases. -/
def exBamB : ModelBam :=
  ⟨[("chr2", 1)], [⟨"chr2", none, false, false, ['A'], [(0, 0)]⟩,
                   ⟨"chr2", none, false, false, ['T'], [(0, 0)]⟩]⟩

/-- Two *reverse-strand* reads at position 0 carrying different bases:
variable on the reverse strand only. -/
def exBamRev : ModelBam :=
  ⟨[("c", 1)], [⟨"c", none, false, true, ['A'], [(0, 0)]⟩,
                ⟨"c", none, false, true, ['T'], [(0, 0)]⟩]⟩

/-- A single read carrying the `CB` barcode tag `X`. -/
def exBamCB : ModelBam :=
  ⟨[("c", 1)], [⟨"c", some "X", false, false, ['A'], [(0, 0)]⟩]⟩

/-- A BAM file with a header but no records. -/
def exBamEmpty : ModelBam := ⟨[("c", 1)], []⟩

/-- Mixed bases on the forward strand at positions 0 and 1. -/
def exBamTwo : ModelBam :=
  ⟨[("c", 2)], [⟨"c", none, false, false, ['A'], [(0, 0)]⟩,
                ⟨"c", none, false, false, ['T'], [(0, 0)]⟩,
                ⟨"c", none, false, false, ['G'], [(0, 1)]⟩,
                ⟨"c", none, false, false, ['C'], [(0, 1)]⟩]⟩

theorem exBamA_sweep :
    (BamSifter.from_file exBamA none).sweep_variable_positions =
      { bam := exBamA, jobs := [("chr1", [(0, 1)])],
        forward_variable_map := [("chr1", [0])], reverse_variable_map := [("chr1", [])],
        forward_stat := [], reverse_stat := [] } := by
  simp +decide [BamSifter.from_file, BamSifter.sweep_variable_positions,
    BamSifter.find_variable_positions, BamSifter.variable_bases, sift_block_step,
    make_intervals, make_intervals_go, get_dna_base_freq, exBamA, ModelBam.fetch,
    scan_record, scan_step, recSample, DnaStatMap.new, DnaStatMap.new_sample,
    DnaStatMap.has_sample, zeroStats, DnaBaseStat.new, DnaStatMap.update_reverse_base,
    DnaStatMap.update_forward_base, amodify, modifyAt, baseUpdate, DnaBaseStat.add,
    List.filter, List.foldl, alookup, DnaStatMap.samples, DnaStatMap.get_forward,
    DnaStatMap.get_reverse, BaseFilters.new, BaseFilters.is_variable,
    DnaBaseStat.bi_allelic_stat, DnaBaseStat.most_frequent, maxByLast,
    DnaBaseStat.position, hsExtend, hsInsert, ainsert]

theorem sift_fold_mem (s : BamSifter) (chr : String) :
    ∀ (blocks : List (Int × Int)) (acc : List Int × List Int) (x : Int),
      (x ∈ (blocks.foldl (sift_block_step s chr) acc).1 ↔
        x ∈ acc.1 ∨ ∃ b ∈ blocks, ∃ ps, s.variable_bases chr b.1 b.2 = Except.ok ps ∧ x ∈ ps.1) ∧
      (x ∈ (blocks.foldl (sift_block_step s chr) acc).2 ↔
        x ∈ acc.2 ∨ ∃ b ∈ blocks, ∃ ps, s.variable_bases chr b.1 b.2 = Except.ok ps ∧ x ∈ ps.2) := by
  intro blocks
  induction blocks with
  | nil => intro acc x; simp
  | cons b rest ih =>
    intro acc x
    rw [List.foldl_cons]
    rcases h : s.variable_bases chr b.1 b.2 with e | ps
    · have hstep : sift_block_step s chr acc b = acc := by
        unfold sift_block_step
        rw [h]
      rw [hstep]
      have hPb1 : ¬ ∃ ps, s.variable_bases chr b.1 b.2 = Except.ok ps ∧ x ∈ ps.1 := by
        rintro ⟨ps, hps, _⟩
        rw [h] at hps
        exact Except.noConfusion hps
      have hPb2 : ¬ ∃ ps, s.variable_bases chr b.1 b.2 = Except.ok ps ∧ x ∈ ps.2 := by
        rintro ⟨ps, hps, _⟩
        rw [h] at hps
        exact Except.noConfusion hps
      constructor
      · rw [(ih acc x).1]
        simp only [List.mem_cons]
        constructor
        · rintro (hx | ⟨b2, hb2, hP⟩)
          · exact Or.inl hx
          · exact Or.inr ⟨b2, Or.inr hb2, hP⟩
        · rintro (hx | ⟨b2, (rfl | hb2), hP⟩)
          · exact Or.inl hx
          · exact absurd hP hPb1
          · exact Or.inr ⟨b2, hb2, hP⟩
      · rw [(ih acc x).2]
        simp only [List.mem_cons]
        constructor
        · rintro (hx | ⟨b2, hb2, hP⟩)
          · exact Or.inl hx
          · exact Or.inr ⟨b2, Or.inr hb2, hP⟩
        · rintro (hx | ⟨b2, (rfl | hb2), hP⟩)
          · exact Or.inl hx
          · exact absurd hP hPb2
          · exact Or.inr ⟨b2, hb2, hP⟩
    · have hstep : sift_block_step s chr acc b = (hsExtend acc.1 ps.1, hsExtend acc.2 ps.2) := by
        unfold sift_block_step
        rw [h]
      rw [hstep]
      have hPb1 : (∃ ps2, s.variable_bases chr b.1 b.2 = Except.ok ps2 ∧ x ∈ ps2.1) ↔ x ∈ ps.1 := by
        constructor
        · rintro ⟨ps2, hps, hx⟩
          rw [h] at hps
          cases hps
          exact hx
        · exact fun hx => ⟨ps, h, hx⟩
      have hPb2 : (∃ ps2, s.variable_bases chr b.1 b.2 = Except.ok ps2 ∧ x ∈ ps2.2) ↔ x ∈ ps.2 := by
        constructor
        · rintro ⟨ps2, hps, hx⟩
          rw [h] at hps
          cases hps
          exact hx
        · exact fun hx => ⟨ps, h, hx⟩
      constructor
      · rw [(ih _ x).1]
        show x ∈ hsExtend acc.1 ps.1 ∨ _ ↔ _
        rw [hsExtend_mem]
        simp only [List.mem_cons]
        constructor
        · rintro ((hx | hx) | ⟨b2, hb2, hP⟩)
          · exact Or.inl hx
          · exact Or.inr ⟨b, Or.inl rfl, hPb1.mpr hx⟩
          · exact Or.inr ⟨b2, Or.inr hb2, hP⟩
        · rintro (hx | ⟨b2, (rfl | hb2), hP⟩)
          · exact Or.inl (Or.inl hx)
          · exact Or.inl (Or.inr (hPb1.mp hP))
          · exact Or.inr ⟨b2, hb2, hP⟩
      · rw [(ih _ x).2]
        show x ∈ hsExtend acc.2 ps.2 ∨ _ ↔ _
        rw [hsExtend_mem]
        simp only [List.mem_cons]
        constructor
        · rintro ((hx | hx) | ⟨b2, hb2, hP⟩)
          · exact Or.inl hx
          · exact Or.inr ⟨b, Or.inl rfl, hPb2.mpr hx⟩
          · exact Or.inr ⟨b2, Or.inr hb2, hP⟩
        · rintro (hx | ⟨b2, (rfl | hb2), hP⟩)
          · exact Or.inl (Or.inl hx)
          · exact Or.inl (Or.inr (hPb2.mp hP))
          · exact Or.inr ⟨b2, hb2, hP⟩

theorem find_variable_positions_mem (s : BamSifter) (chr : String)
    (blocks : List (Int × Int)) (x : Int) :
    (x ∈ (s.find_variable_positions chr blocks).1 ↔
      ∃ b ∈ blocks, ∃ ps, s.variable_bases chr b.1 b.2 = Except.ok ps ∧ x ∈ ps.1) ∧
    (x ∈ (s.find_variable_positions chr blocks).2 ↔
      ∃ b ∈ blocks, ∃ ps, s.variable_bases chr b.1 b.2 = Except.ok ps ∧ x ∈ ps.2) := by
  have h := sift_fold_mem s chr blocks ([], []) x
  unfold BamSifter.find_variable_positions
  simpa using h

/-- Sifter state after sweeping `exBamTwo`: forward positions 0 and 1. -/
def exSifterTwo : BamSifter :=
  { bam := exBamTwo, jobs := [("c", [(0, 2)])],
    forward_variable_map := [("c", [0, 1])], reverse_variable_map := [("c", [])],
    forward_stat := [], reverse_stat := [] }

/-- The same sifter state under the opposite `HashSet` iteration order of
the same forward position set. -/
def exSifterTwoSwapped : BamSifter :=
  { exSifterTwo with forward_variable_map := [("c", [1, 0])] }

theorem exBamTwo_sweep :
    (BamSifter.from_file exBamTwo none).sweep_variable_positions = exSifterTwo := by
  simp +decide [BamSifter.from_file, BamSifter.sweep_variable_positions,
    BamSifter.find_variable_positions, BamSifter.variable_bases, sift_block_step,
    make_intervals, make_intervals_go, get_dna_base_freq, exBamTwo, exSifterTwo,
    ModelBam.fetch, scan_record, scan_step, recSample, DnaStatMap.new,
    DnaStatMap.new_sample, DnaStatMap.has_sample, zeroStats, DnaBaseStat.new,
    DnaStatMap.update_reverse_base, DnaStatMap.update_forward_base, amodify, modifyAt,
    baseUpdate, DnaBaseStat.add, List.filter, List.foldl, alookup, DnaStatMap.samples,
    DnaStatMap.get_forward, DnaStatMap.get_reverse, BaseFilters.new, BaseFilters.is_variable,
    DnaBaseStat.bi_allelic_stat, DnaBaseStat.most_frequent, maxByLast,
    DnaBaseStat.position, hsExtend, hsInsert, ainsert]

theorem exSifterTwo_populate_positions :
    (alookup exSifterTwo.populate_statistics.forward_stat (Sample.Combined, "c")).map
      (fun l => l.map DnaBaseStat.position) = some [0, 1] := by
  simp +decide [exSifterTwo, exBamTwo, BamSifter.populate_statistics, accumulate_region,
    entryAppend, get_dna_base_freq, ModelBam.fetch, scan_record, scan_step, recSample,
    DnaStatMap.new, DnaStatMap.new_sample, DnaStatMap.has_sample, zeroStats, DnaBaseStat.new,
    DnaStatMap.update_reverse_base, DnaStatMap.update_forward_base, amodify, modifyAt,
    baseUpdate, DnaBaseStat.add, List.filter, List.foldl, alookup, DnaStatMap.samples,
    DnaStatMap.get_forward, DnaStatMap.get_reverse, DnaBaseStat.position]

theorem exSifterTwoSwapped_populate_positions :
    (alookup exSifterTwoSwapped.populate_statistics.forward_stat (Sample.Combined, "c")).map
      (fun l => l.map DnaBaseStat.position) = some [1, 0] := by
  simp +decide [exSifterTwoSwapped, exSifterTwo, exBamTwo, BamSifter.populate_statistics,
    accumulate_region, entryAppend, get_dna_base_freq, ModelBam.fetch, scan_record,
    scan_step, recSample, DnaStatMap.new, DnaStatMap.new_sample, DnaStatMap.has_sample,
    zeroStats, DnaBaseStat.new, DnaStatMap.update_reverse_base,
    DnaStatMap.update_forward_base, amodify, modifyAt, baseUpdate, DnaBaseStat.add,
    List.filter, List.foldl, alookup, DnaStatMap.samples, DnaStatMap.get_forward,
    DnaStatMap.get_reverse, DnaBaseStat.position]

/-- The regions fetched by the second pass: one single-position region per
position of the *forward* variable map, in iteration order. -/
def populate_fetched_regions (s : BamSifter) : List (String × Int × Int) :=
  (s.forward_variable_map.map (fun cp => cp.2.map (fun p => (cp.1, p, p + 1)))).flatten

theorem populate_eq_fold_regions (s : BamSifter) :
    (s.populate_statistics.forward_stat, s.populate_statistics.reverse_stat)
      = (populate_fetched_regions s).foldl (accumulate_region s.bam)
          (s.forward_stat, s.reverse_stat) := by
  conv_rhs => rw [populate_fetched_regions, List.foldl_flatten, List.foldl_map]
  simp only [List.foldl_map]
  rfl

theorem populate_fetched_regions_mem (s : BamSifter) (chr : String) (lb ub : Int) :
    (chr, lb, ub) ∈ populate_fetched_regions s ↔
      ∃ ps, (chr, ps) ∈ s.forward_variable_map ∧ lb ∈ ps ∧ ub = lb + 1 := by
  unfold populate_fetched_regions
  rw [List.mem_flatten]
  constructor
  · rintro ⟨lst, hlst, hmem⟩
    rcases List.mem_map.mp hlst with ⟨cp, hcp, rfl⟩
    rcases List.mem_map.mp hmem with ⟨p, hp, heq⟩
    have h1 : cp.1 = chr := congrArg Prod.fst heq
    have h2 : p = lb := congrArg (fun q => q.2.1) heq
    have h3 : p + 1 = ub := congrArg (fun q => q.2.2) heq
    refine ⟨cp.2, ?_, ?_, ?_⟩
    · rw [← h1]
      exact hcp
    · rw [← h2]
      exact hp
    · omega
  · rintro ⟨ps, hps, hlb, rfl⟩
    exact ⟨ps.map (fun p => (chr, p, p + 1)),
      List.mem_map.mpr ⟨(chr, ps), hps, rfl⟩,
      List.mem_map.mpr ⟨lb, hlb, rfl⟩⟩

theorem new_sample_preserves (m : DnaStatMap) (s2 : Sample) (lb ub : Int) (k : Sample)
    (hk : k ≠ s2) :
    (m.new_sample s2 lb ub).get_forward k = m.get_forward k ∧
    (m.new_sample s2 lb ub).get_reverse k = m.get_reverse k := by
  unfold DnaStatMap.new_sample
  by_cases h : m.has_sample s2
  · rw [if_pos h]
    exact ⟨rfl, rfl⟩
  · rw [if_neg h]
    constructor
    · show alookup (m.forward ++ [(s2, zeroStats lb ub)]) k = alookup m.forward k
      rw [alookup_append]
      rcases hm : alookup m.forward k with _ | v
      · simp only [hm]
        show (if s2 = k then some (zeroStats lb ub) else alookup [] k) = none
        rw [if_neg (fun he => hk he.symm)]
        rfl
      · simp only [hm]
    · show alookup (m.reverse ++ [(s2, zeroStats lb ub)]) k = alookup m.reverse k
      rw [alookup_append]
      rcases hm : alookup m.reverse k with _ | v
      · simp only [hm]
        show (if s2 = k then some (zeroStats lb ub) else alookup [] k) = none
        rw [if_neg (fun he => hk he.symm)]
        rfl
      · simp only [hm]

theorem scan_step_preserves (r : BamRec) (sid : Sample) (lb ub : Int) (k : Sample)
    (hk : k ≠ sid) (m : DnaStatMap) (rg : Nat × Int) :
    (scan_step r sid lb ub m rg).get_forward k = m.get_forward k ∧
    (scan_step r sid lb ub m rg).get_reverse k = m.get_reverse k := by
  unfold scan_step
  by_cases h1 : rg.2 < lb ∨ rg.2 ≥ ub
  · rw [if_pos h1]
    exact ⟨rfl, rfl⟩
  · rw [if_neg h1]
    rcases h2 : r.seq.get? rg.1 with _ | bp
    · exact ⟨rfl, rfl⟩
    · constructor
      · show DnaStatMap.get_forward
            (if r.is_rev = true then m.update_reverse_base sid (rg.2 - lb).toNat (baseUpdate bp)
             else m.update_forward_base sid (rg.2 - lb).toNat (baseUpdate bp)) k
          = m.get_forward k
        by_cases h3 : r.is_rev
        · rw [if_pos h3]
          rfl
        · rw [if_neg h3]
          exact alookup_amodify_ne _ _ _ hk _
      · show DnaStatMap.get_reverse
            (if r.is_rev = true then m.update_reverse_base sid (rg.2 - lb).toNat (baseUpdate bp)
             else m.update_forward_base sid (rg.2 - lb).toNat (baseUpdate bp)) k
          = m.get_reverse k
        by_cases h3 : r.is_rev
        · rw [if_pos h3]
          exact alookup_amodify_ne _ _ _ hk _
        · rw [if_neg h3]
          rfl

theorem scan_fold_preserves (r : BamRec) (sid : Sample) (lb ub : Int) (k : Sample)
    (hk : k ≠ sid) :
    ∀ (l : List (Nat × Int)) (m : DnaStatMap),
      (l.foldl (scan_step r sid lb ub) m).get_forward k = m.get_forward k ∧
      (l.foldl (scan_step r sid lb ub) m).get_reverse k = m.get_reverse k := by
  intro l
  induction l with
  | nil => intro m; exact ⟨rfl, rfl⟩
  | cons rg rest ih =>
    intro m
    rw [List.foldl_cons]
    have hstep := scan_step_preserves r sid lb ub k hk m rg
    exact ⟨(ih _).1.trans hstep.1, (ih _).2.trans hstep.2⟩


theorem exBamB_sweep :
    (BamSifter.from_file exBamB none).sweep_variable_positions =
      { bam := exBamB, jobs := [("chr2", [(0, 1)])],
        forward_variable_map := [("chr2", [0])], reverse_variable_map := [("chr2", [])],
        forward_stat := [], reverse_stat := [] } := by
  simp +decide [exBamB, BamSifter.from_file, BamSifter.sweep_variable_positions,
    BamSifter.find_variable_positions, BamSifter.variable_bases, sift_block_step,
    make_intervals, make_intervals_go, get_dna_base_freq, ModelBam.fetch,
    scan_record, scan_step, recSample, DnaStatMap.new, DnaStatMap.new_sample,
    DnaStatMap.has_sample, zeroStats, DnaBaseStat.new, DnaStatMap.update_reverse_base,
    DnaStatMap.update_forward_base, amodify, modifyAt, baseUpdate, DnaBaseStat.add,
    List.filter, List.foldl, alookup, DnaStatMap.samples, DnaStatMap.get_forward,
    DnaStatMap.get_reverse, BaseFilters.new, BaseFilters.is_variable,
    DnaBaseStat.bi_allelic_stat, DnaBaseStat.most_frequent, maxByLast,
    DnaBaseStat.position, hsExtend, hsInsert, ainsert]

/-- Sifter state after sweeping `exBamRev`: the position 0 is flagged on
the reverse strand only. -/
def exSifterRev : BamSifter :=
  { bam := exBamRev, jobs := [("c", [(0, 1)])],
    forward_variable_map := [("c", [])], reverse_variable_map := [("c", [0])],
    forward_stat := [], reverse_stat := [] }

theorem exBamRev_sweep :
    (BamSifter.from_file exBamRev none).sweep_variable_positions = exSifterRev := by
  simp +decide [exBamRev, exSifterRev, BamSifter.from_file, BamSifter.sweep_variable_positions,
    BamSifter.find_variable_positions, BamSifter.variable_bases, sift_block_step,
    make_intervals, make_intervals_go, get_dna_base_freq, ModelBam.fetch,
    scan_record, scan_step, recSample, DnaStatMap.new, DnaStatMap.new_sample,
    DnaStatMap.has_sample, zeroStats, DnaBaseStat.new, DnaStatMap.update_reverse_base,
    DnaStatMap.update_forward_base, amodify, modifyAt, baseUpdate, DnaBaseStat.add,
    List.filter, List.foldl, alookup, DnaStatMap.samples, DnaStatMap.get_forward,
    DnaStatMap.get_reverse, BaseFilters.new, BaseFilters.is_variable,
    DnaBaseStat.bi_allelic_stat, DnaBaseStat.most_frequent, maxByLast,
    DnaBaseStat.position, hsExtend, hsInsert, ainsert]

/-- C1 (counterexample): sweeping `exBamRev` flags position 0 on the
*reverse* strand only; `populate_statistics` then issues no fetch at all
(it iterates only the forward map) and both stat tables stay empty, so the
reverse-flagged position is omitted from the second pass. -/
theorem C1_counterexample :
    (BamSifter.from_file exBamRev none).sweep_variable_positions = exSifterRev ∧
    alookup exSifterRev.reverse_variable_map "c" = some [0] ∧
    exSifterRev.populate_statistics.forward_stat = [] ∧
    exSifterRev.populate_statistics.reverse_stat = [] :=
  ⟨exBamRev_sweep, rfl, rfl, rfl⟩

/-- C1 (amended): `populate_statistics` folds the per-sample stats of
exactly the single-position fetches `[p, p+1)` for the positions of the
*forward* variable map — a region is fetched iff its position is flagged
on the forward strand; reverse-only positions trigger no fetch. -/
theorem C1_populate_fetches_forward_positions_only (s : BamSifter) :
    ((s.populate_statistics.forward_stat, s.populate_statistics.reverse_stat)
        = (populate_fetched_regions s).foldl (accumulate_region s.bam)
            (s.forward_stat, s.reverse_stat)) ∧
    (∀ chr lb ub, (chr, lb, ub) ∈ populate_fetched_regions s ↔
      ∃ ps, (chr, ps) ∈ s.forward_variable_map ∧ lb ∈ ps ∧ ub = lb + 1) :=
  ⟨populate_eq_fold_regions s, fun chr lb ub => populate_fetched_regions_mem s chr lb ub⟩

/-- C2 (counterexample): sifter A swept from `exBamA` (only `chr1`) and
sifter B swept from `exBamB` (only `chr2`). After `A.add_missed_positions B`
followed by `B.add_missed_positions A`, A holds nothing for `chr2` even
though B flags position 0 there — the receiver drops sequences it does not
already contain, so the maps are not the claimed per-sequence union and the
two sifters do not end up identical. -/
theorem C2_counterexample :
    alookup (((BamSifter.from_file exBamA none).sweep_variable_positions).add_missed_positions
        ((BamSifter.from_file exBamB none).sweep_variable_positions)).forward_variable_map
        "chr2" = none ∧
    (0 : Int) ∈ (alookup ((BamSifter.from_file exBamB none).sweep_variable_positions).forward_variable_map
        "chr2").getD [] ∧
    (((BamSifter.from_file exBamA none).sweep_variable_positions).add_missed_positions
        ((BamSifter.from_file exBamB none).sweep_variable_positions)).forward_variable_map ≠
      (((BamSifter.from_file exBamB none).sweep_variable_positions).add_missed_positions
        (((BamSifter.from_file exBamA none).sweep_variable_positions).add_missed_positions
          ((BamSifter.from_file exBamB none).sweep_variable_positions))).forward_variable_map := by
  rw [exBamA_sweep, exBamB_sweep]
  refine ⟨rfl, by simp [alookup], ?_⟩
  intro h
  have h2 := congrArg (fun m => alookup m "chr2") h
  simp only [alookup] at h2
  revert h2
  simp [BamSifter.add_missed_positions, add_positions_map, alookup, amodify, hsExtend, hsInsert]

/-- C2 (amended): `add_missed_positions` unions the other sifter's
positions into the receiver only for sequences the receiver's map already
contains (sequences only in the other sifter are dropped); for sequences
present in both maps the receiver ends up with the set union, and the
mutual reconcile leaves both holding that union. -/
theorem C2_reconcile_union (m1 m2 : List (String × List Int))
    (h1 : (m1.map Prod.fst).Nodup) (h2 : (m2.map Prod.fst).Nodup) :
    (∀ k v1 v2, alookup m1 k = some v1 → alookup m2 k = some v2 →
      ∃ w1 w2, alookup (add_positions_map m1 m2) k = some w1 ∧
        alookup (add_positions_map m2 (add_positions_map m1 m2)) k = some w2 ∧
        w1.toFinset = v1.toFinset ∪ v2.toFinset ∧
        w2.toFinset = v1.toFinset ∪ v2.toFinset) ∧
    (∀ k, alookup m1 k = none → alookup (add_positions_map m1 m2) k = none) := by
  constructor
  · intro k v1 v2 hv1 hv2
    have hA := alookup_add_positions_map m1 m2 h2 k
    rw [hv1, hv2] at hA
    have hkeys : ((add_positions_map m1 m2).map Prod.fst).Nodup := by
      rw [add_positions_map_keys]
      exact h1
    have hB := alookup_add_positions_map m2 (add_positions_map m1 m2) hkeys k
    rw [hv2, hA] at hB
    refine ⟨hsExtend v1 v2, hsExtend v2 (hsExtend v1 v2), hA, hB, ?_, ?_⟩
    · rw [hsExtend_toFinset]
    · rw [hsExtend_toFinset, hsExtend_toFinset]
      ext z
      simp
      tauto
  · intro k hk
    have hA := alookup_add_positions_map m1 m2 h2 k
    rw [hk] at hA
    exact hA

/-- Witness for C2 at two one-sequence maps over the same key. -/
theorem C2_reconcile_union_witness :
    ∃ w1 w2, alookup (add_positions_map [("chr1", [1])] [("chr1", [2])]) "chr1" = some w1 ∧
      alookup (add_positions_map [("chr1", [2])]
        (add_positions_map [("chr1", [1])] [("chr1", [2])])) "chr1" = some w2 ∧
      w1.toFinset = ([1] : List Int).toFinset ∪ ([2] : List Int).toFinset ∧
      w2.toFinset = ([1] : List Int).toFinset ∪ ([2] : List Int).toFinset :=
  (C2_reconcile_union [("chr1", [1])] [("chr1", [2])] (by simp) (by simp)).1
    "chr1" [1] [2] rfl rfl

/-- The frequency map produced for `exBamCB`: the barcoded read's base is
counted only under `Barcode "X"`; `Combined` stays all-zero. -/
def exStatCB : DnaStatMap :=
  ⟨[(Sample.Combined, [⟨[(Dna.A, 0), (Dna.T, 0), (Dna.G, 0), (Dna.C, 0)], 0⟩]),
    (Sample.Barcode "X", [⟨[(Dna.A, 1), (Dna.T, 0), (Dna.G, 0), (Dna.C, 0)], 0⟩])],
   [(Sample.Combined, [⟨[(Dna.A, 0), (Dna.T, 0), (Dna.G, 0), (Dna.C, 0)], 0⟩]),
    (Sample.Barcode "X", [⟨[(Dna.A, 0), (Dna.T, 0), (Dna.G, 0), (Dna.C, 0)], 0⟩])],
   [Sample.Combined, Sample.Barcode "X"]⟩

theorem exBamCB_freq : get_dna_base_freq exBamCB ("c", 0, 1) = Except.ok exStatCB := by
  simp +decide [exBamCB, exStatCB, get_dna_base_freq, ModelBam.fetch, scan_record,
    scan_step, recSample, DnaStatMap.new, DnaStatMap.new_sample, DnaStatMap.has_sample,
    zeroStats, DnaBaseStat.new, DnaStatMap.update_reverse_base,
    DnaStatMap.update_forward_base, amodify, modifyAt, baseUpdate, DnaBaseStat.add,
    List.filter, List.foldl, alookup]

/-- C3 (counterexample): a single read carrying barcode `X` with base `A`
at position 0 is tallied only in the `Barcode "X"` table (count 1); the
`Combined` table stays at 0, refuting the claim that `Combined` counts
every read and that barcoded reads are double-counted. -/
theorem C3_counterexample :
    get_dna_base_freq exBamCB ("c", 0, 1) = Except.ok exStatCB ∧
    ((exStatCB.get_forward Sample.Combined).getD []).map (fun s => s.get Dna.A) = [0] ∧
    ((exStatCB.get_forward (Sample.Barcode "X")).getD []).map (fun s => s.get Dna.A) = [1] :=
  ⟨exBamCB_freq, rfl, rfl⟩

/-- C3 (amended): each read's base calls are tallied into exactly one
sample — its `Barcode` sample when the `CB` tag is present (leaving the
`Combined` tables untouched), and `Combined` when the tag is absent
(leaving every `Barcode` table untouched). -/
theorem C3_exclusive_sample_routing (m : DnaStatMap) (r : BamRec) (lb ub : Int) :
    (∀ x, r.cb = some x →
      (scan_record lb ub m r).get_forward Sample.Combined = m.get_forward Sample.Combined ∧
      (scan_record lb ub m r).get_reverse Sample.Combined = m.get_reverse Sample.Combined) ∧
    (r.cb = none → ∀ b,
      (scan_record lb ub m r).get_forward (Sample.Barcode b)
        = m.get_forward (Sample.Barcode b) ∧
      (scan_record lb ub m r).get_reverse (Sample.Barcode b)
        = m.get_reverse (Sample.Barcode b)) := by
  constructor
  · intro x hcb
    have hrec : recSample r = Sample.Barcode x := by
      simp only [recSample, hcb]
    have hsc : scan_record lb ub m r
        = r.aligned.foldl (scan_step r (recSample r) lb ub)
            (m.new_sample (Sample.Barcode x) lb ub) := by
      simp only [scan_record, hcb]
    rw [hsc, hrec]
    have hk : Sample.Combined ≠ Sample.Barcode x := fun h => Sample.noConfusion h
    have hfold := scan_fold_preserves r (Sample.Barcode x) lb ub Sample.Combined hk
      r.aligned (m.new_sample (Sample.Barcode x) lb ub)
    have hnew := new_sample_preserves m (Sample.Barcode x) lb ub Sample.Combined hk
    exact ⟨hfold.1.trans hnew.1, hfold.2.trans hnew.2⟩
  · intro hcb b
    have hrec : recSample r = Sample.Combined := by
      simp only [recSample, hcb]
    have hsc : scan_record lb ub m r = r.aligned.foldl (scan_step r (recSample r) lb ub) m := by
      simp only [scan_record, hcb]
    rw [hsc, hrec]
    have hk : Sample.Barcode b ≠ Sample.Combined := fun h => Sample.noConfusion h
    exact scan_fold_preserves r Sample.Combined lb ub (Sample.Barcode b) hk r.aligned m

/-- Witness for C3 at the barcoded fixture record. -/
theorem C3_exclusive_sample_routing_witness :
    (scan_record 0 1 (DnaStatMap.new.new_sample Sample.Combined 0 1)
        ⟨"c", some "X", false, false, ['A'], [(0, 0)]⟩).get_forward Sample.Combined
      = (DnaStatMap.new.new_sample Sample.Combined 0 1).get_forward Sample.Combined ∧
    (scan_record 0 1 (DnaStatMap.new.new_sample Sample.Combined 0 1)
        ⟨"c", some "X", false, false, ['A'], [(0, 0)]⟩).get_reverse Sample.Combined
      = (DnaStatMap.new.new_sample Sample.Combined 0 1).get_reverse Sample.Combined :=
  (C3_exclusive_sample_routing (DnaStatMap.new.new_sample Sample.Combined 0 1)
    ⟨"c", some "X", false, false, ['A'], [(0, 0)]⟩ 0 1).1 "X" rfl

/-- C6 (counterexample): a fetch over a valid region `[0, 1)` of a BAM file
with no records returns the `Empty region` error — zero usable records is
an error in the code, not a valid all-zero outcome. -/
theorem C6_counterexample :
    get_dna_base_freq exBamEmpty ("c", 0, 1) = Except.error "Empty region" := rfl

/-- C6 (amended): `get_dna_base_freq` returns an error iff `start ≥ end`
or the fetched region contains no non-duplicate record; in particular a
successfully scanned region with zero usable records is the `Empty region`
error, not an all-zero success. (I/O-level seek failures panic in the
source rather than returning an error, so they have no counterpart here.) -/
theorem C6_fetch_error_iff (bam : ModelBam) (chr : String) (lb ub : Int) :
    (∃ e, get_dna_base_freq bam (chr, lb, ub) = Except.error e) ↔
      lb ≥ ub ∨ (bam.fetch chr lb ub).filter (fun r => !r.is_dup) = [] := by
  unfold get_dna_base_freq
  by_cases h : lb ≥ ub
  · simp [h]
  · simp only [if_neg h]
    by_cases h2 : (bam.fetch chr lb ub).filter (fun r => !r.is_dup) = []
    · rw [h2]
      simp [h, h2]
    · have hlen : ¬ ((bam.fetch chr lb ub).filter (fun r => !r.is_dup)).length < 1 := by
        rcases hc : (bam.fetch chr lb ub).filter (fun r => !r.is_dup) with _ | ⟨a, rest⟩
        · exact absurd hc h2
        · rw [hc]
          simp
      rw [if_neg hlen]
      simp [h, h2]

/-- C9 (counterexample): `exSifterTwo` is the swept state of `exBamTwo`
with forward positions `[0, 1]`; `exSifterTwoSwapped` is the same state
under the opposite hash-set iteration order `[1, 0]` of the same position
set. After `populate_statistics` the `(Combined, "c")` forward table lists
the per-position stats in processing order — `[0, 1]` versus `[1, 0]` — so
the final statistics tables are not identical across processing orders. -/
theorem C9_counterexample :
    (BamSifter.from_file exBamTwo none).sweep_variable_positions = exSifterTwo ∧
    exSifterTwo.forward_variable_map = [("c", [0, 1])] ∧
    exSifterTwoSwapped.forward_variable_map = [("c", [1, 0])] ∧
    ([0, 1] : List Int).toFinset = ([1, 0] : List Int).toFinset ∧
    (alookup exSifterTwo.populate_statistics.forward_stat (Sample.Combined, "c")).map
      (fun l => l.map DnaBaseStat.position) = some [0, 1] ∧
    (alookup exSifterTwoSwapped.populate_statistics.forward_stat (Sample.Combined, "c")).map
      (fun l => l.map DnaBaseStat.position) = some [1, 0] ∧
    exSifterTwo.populate_statistics.forward_stat
      ≠ exSifterTwoSwapped.populate_statistics.forward_stat := by
  refine ⟨exBamTwo_sweep, rfl, rfl, by decide, exSifterTwo_populate_positions,
    exSifterTwoSwapped_populate_positions, ?_⟩
  intro h
  have h1 := exSifterTwo_populate_positions
  rw [h] at h1
  rw [exSifterTwoSwapped_populate_positions] at h1
  simp at h1

/-- C9 (amended): the per-strand variable-position sets computed by the
sweep over a sequence's blocks are the same, as sets, for any two
processing orders of the blocks; the statistics tables of the second pass,
by contrast, depend on the processing order (see the counterexample). -/
theorem C9_sweep_order_independent (s : BamSifter) (chr : String)
    (blocks blocks2 : List (Int × Int)) (hp : blocks.Perm blocks2) :
    (s.find_variable_positions chr blocks).1.toFinset
        = (s.find_variable_positions chr blocks2).1.toFinset ∧
    (s.find_variable_positions chr blocks).2.toFinset
        = (s.find_variable_positions chr blocks2).2.toFinset := by
  constructor
  · ext x
    simp only [List.mem_toFinset]
    rw [(find_variable_positions_mem s chr blocks x).1,
      (find_variable_positions_mem s chr blocks2 x).1]
    simp only [hp.mem_iff]
  · ext x
    simp only [List.mem_toFinset]
    rw [(find_variable_positions_mem s chr blocks x).2,
      (find_variable_positions_mem s chr blocks2 x).2]
    simp only [hp.mem_iff]

/-- Witness for C9: the two blocks of a sequence processed in either
order yield the same variable-position sets. -/
theorem C9_sweep_order_independent_witness :
    (exSifterTwo.find_variable_positions "c" [(0, 1), (1, 2)]).1.toFinset
        = (exSifterTwo.find_variable_positions "c" [(1, 2), (0, 1)]).1.toFinset ∧
    (exSifterTwo.find_variable_positions "c" [(0, 1), (1, 2)]).2.toFinset
        = (exSifterTwo.find_variable_positions "c" [(1, 2), (0, 1)]).2.toFinset :=
  C9_sweep_order_independent exSifterTwo "c" [(0, 1), (1, 2)] [(1, 2), (0, 1)]
    (List.Perm.swap (1, 2) (0, 1) [])

theorem add_positions_map_nil (l : List (String × List Int)) :
    add_positions_map [] l = [] := by
  induction l with
  | nil => rfl
  | cons kv rest ih =>
    show add_positions_map (match alookup ([] : List (String × List Int)) kv.1 with
      | some _ => amodify (fun cur => hsExtend cur kv.2) kv.1 []
      | none => []) rest = []
    exact ih

/-- C10 (counterexample): on a freshly constructed sifter (state
`Initialized`, variable maps empty), calling the later-stage operations
`populate_statistics` and `add_missed_positions` (reconcile) returns the
sifter unchanged — a silent no-op, with no error of any kind (the source
methods return unit and have no failure path), refuting the claimed
fail-fast behaviour. -/
theorem C10_counterexample :
    (BamSifter.from_file exBamA none).populate_statistics = BamSifter.from_file exBamA none ∧
    (BamSifter.from_file exBamA none).add_missed_positions
        ((BamSifter.from_file exBamB none).sweep_variable_positions)
      = BamSifter.from_file exBamA none := by
  constructor
  · rfl
  · rw [exBamB_sweep]
    rfl

/-- C10 (amended): the stages are ordered by calling convention only — the
sifter keeps no stage state, and calling `populate_statistics` or
`add_missed_positions` before `sweep_variable_positions` silently does
nothing (the variable maps are empty, so the operations return the state
unchanged) instead of failing fast with an error. -/
theorem C10_premature_calls_silently_noop (bam : ModelBam) (bs : Option Nat)
    (other : BamSifter) :
    (BamSifter.from_file bam bs).populate_statistics = BamSifter.from_file bam bs ∧
    (BamSifter.from_file bam bs).add_missed_positions other = BamSifter.from_file bam bs := by
  constructor
  · rfl
  · have h1 : (BamSifter.from_file bam bs).forward_variable_map = [] := rfl
    have h2 : (BamSifter.from_file bam bs).reverse_variable_map = [] := rfl
    unfold BamSifter.add_missed_positions
    rw [h1, h2, add_positions_map_nil, add_positions_map_nil]
    rfl

end Faba
